import Mathlib

/-!
# Verification of `internal/auth/auth.go`

A shallow embedding of the function `GetAPIKey` together with the parts of the
Go standard library it calls (`errors.New`, `http.Header.Get`,
`strings.Split`), followed by theorems about it.

Modelling conventions.

* A Go `string` is a Lean `String`.  The only separator the program uses is the
  ASCII space, a single byte that never occurs inside a multi-byte UTF-8
  sequence, so splitting by characters agrees with Go's splitting by bytes.
* A Go `error` produced by `errors.New` is a pointer to an `errorString`
  object.  Two such errors compare equal (`==`, `errors.Is`) exactly when the
  pointers are equal, so the embedding keeps an explicit heap of allocated
  error objects and threads it through every call.
* A Go run-time panic (index out of range) is the value `none`.
-/

namespace Auth

/-! ## `errors` -/

/-- A non-nil Go `error` made by `errors.New`: the address of an `errorString`. -/
abbrev ErrorRef := Nat

/-- The `errorString` objects allocated so far; the address of an object is its
position.  Objects are immutable and never freed, so the heap only grows. -/
abbrev ErrorHeap := List String

namespace errors

/-- Go `errors.New(text)`: allocates a fresh `errorString` and returns its
address.  Each call returns a distinct error value even if the text is
identical. -/
def New (text : String) (σ : ErrorHeap) : ErrorRef × ErrorHeap :=
  (σ.length, σ ++ [text])

/-- Go `err.Error()` for an `errorString`: the text stored at the address. -/
def Error (σ : ErrorHeap) (e : ErrorRef) : Option String :=
  σ.get? e

end errors

/-- The package-level `var ErrNoAuthHeaderIncluded = errors.New(...)`, evaluated
once at package initialisation on the empty heap. -/
def ErrNoAuthHeaderIncluded : ErrorRef :=
  (errors.New "no authorization header included" []).1

/-- The heap right after package initialisation. -/
def initHeap : ErrorHeap :=
  (errors.New "no authorization header included" []).2

/-- A heap the program can be in when `GetAPIKey` is called: package
initialisation has run, so the sentinel object is allocated. -/
def HeapOK (σ : ErrorHeap) : Prop :=
  errors.Error σ ErrNoAuthHeaderIncluded = some "no authorization header included"

instance (σ : ErrorHeap) : Decidable (HeapOK σ) := by
  unfold HeapOK; infer_instance

/-! ## `net/http` and `net/textproto` -/

/-- Go `http.Header`, a `map[string][]string`, as an association list; the
first entry for a key is the one the map holds. -/
abbrev Header := List (String × List String)

/-- Go map index expression `h[key]`: the stored slice, or the nil slice when
the key is not in the map. -/
def Header.index (h : Header) (key : String) : List String :=
  (h.lookup key).getD []

/-- Go `textproto.validHeaderFieldByte`: the RFC 7230 token characters. -/
def validHeaderFieldByte (c : Char) : Bool :=
  ('0' ≤ c && c ≤ '9') || ('a' ≤ c && c ≤ 'z') || ('A' ≤ c && c ≤ 'Z') ||
    "!#$%&'*+-.^_`|~".data.contains c

/-- One step of the canonicalising loop of Go `textproto.canonicalMIMEHeaderKey`:
a lower-case letter is raised where an upper-case one is due, an upper-case
letter is lowered elsewhere (`toLower` is the constant `'a' - 'A'`, 32). -/
def canonicalByte (upper : Bool) (c : Char) : Char :=
  if upper && ('a' ≤ c && c ≤ 'z') then Char.ofNat (c.toNat - 32)
  else if !upper && ('A' ≤ c && c ≤ 'Z') then Char.ofNat (c.toNat + 32)
  else c

/-- The canonicalising loop of Go `textproto.canonicalMIMEHeaderKey`: upper
case is due for the first byte and for a byte after a dash. -/
def canonicalLoop : Bool → List Char → List Char
  | _, [] => []
  | upper, c :: cs =>
    canonicalByte upper c :: canonicalLoop (canonicalByte upper c == '-') cs

/-- Go `textproto.CanonicalMIMEHeaderKey`: a key made only of token characters
is canonicalised, any other key is returned unchanged. -/
def CanonicalMIMEHeaderKey (s : String) : String :=
  if s.data.all validHeaderFieldByte then String.mk (canonicalLoop true s.data) else s

/-- Go `http.Header.Get`: canonicalises the key that is asked for, indexes the
map with it, and returns the first value, or `""` when there is none. -/
def Header.Get (h : Header) (key : String) : String :=
  match h.index (CanonicalMIMEHeaderKey key) with
  | [] => ""
  | v :: _ => v

/-- The first value stored under `key`, `none` when the header is absent.  Go
cannot tell a missing key from a key holding no values: both index to a slice
of length 0. -/
def Header.firstValue (h : Header) (key : String) : Option String :=
  (h.index key).head?

/-- Go `http.Header.Set`: stores the single value under the canonicalised key,
replacing what was there. -/
def Header.Set (h : Header) (key value : String) : Header :=
  (CanonicalMIMEHeaderKey key, [value]) :: h

/-! ## `strings` -/

namespace strings

/-- Go `strings.IndexByte`: position of the first occurrence of `c`; `none`
stands for Go's `-1`. -/
def IndexByte : List Char → Char → Option Nat
  | [], _ => none
  | x :: xs, c => if x = c then some 0 else (IndexByte xs c).map (· + 1)

/-- Go `strings.Count` for a one-byte separator. -/
def Count (s : List Char) (c : Char) : Nat :=
  s.count c

/-- The loop of Go `strings.genSplit`, `n` iterations left: cut at the next
separator, or stop when there is none. -/
def genSplitLoop (sep : Char) : Nat → List Char → List (List Char)
  | 0, s => [s]
  | n + 1, s =>
    match IndexByte s sep with
    | none => [s]
    | some m => s.take m :: genSplitLoop sep n (s.drop (m + 1))

/-- Go `strings.Split(s, sep)` for a one-byte separator: `genSplit(s, sep, 0, -1)`,
which sets `n = Count(s, sep) + 1`, caps it at `len(s) + 1` and runs the loop
`n - 1` times. -/
def Split (s : String) (sep : Char) : List String :=
  let n := min (Count s.data sep + 1) (s.length + 1)
  (genSplitLoop sep (n - 1) s.data).map String.mk

end strings

/-! ## `GetAPIKey` -/

/-- What a call returns: the Go result pair `(string, error)`, `err = none`
being Go's `nil`, and the heap after the call. -/
structure Outcome where
  key : String
  err : Option ErrorRef
  heap : ErrorHeap
deriving DecidableEq, Repr

/-- The function `GetAPIKey` of `auth.go`.  `none` is a panic. -/
def GetAPIKey (headers : Header) (σ : ErrorHeap) : Option Outcome :=
  let authHeader := headers.Get "Authorization"
  if authHeader = "" then
    some ⟨"", some ErrNoAuthHeaderIncluded, σ⟩
  else
    let splitAuth := strings.Split authHeader ' '
    if splitAuth.length < 2 then
      let r := errors.New "malformed authorization header" σ
      some ⟨"", some r.1, r.2⟩
    else
      match splitAuth.get? 0 with
      | none => none
      | some scheme =>
        if scheme ≠ "ApiKey" then
          let r := errors.New "malformed authorization header" σ
          some ⟨"", some r.1, r.2⟩
        else
          match splitAuth.get? 1 with
          | none => none
          | some k => some ⟨k, none, σ⟩

/-- The outcome the source's `return "", errors.New("malformed authorization header")`
produces on heap `σ`. -/
def malformed (σ : ErrorHeap) : Outcome :=
  ⟨"", some (errors.New "malformed authorization header" σ).1,
    (errors.New "malformed authorization header" σ).2⟩

/-- The split-free description of what a call returns for the `Authorization`
value `v`, written from the statement of the characterisation and not from the
source, to be compared with `GetAPIKey`: the sentinel for the empty value;
success exactly when `v` starts with the seven characters `"ApiKey "`, the key
being the longest space-free run that follows them; the malformed-header error
in every other case. -/
def splitFreeResult (v : String) (σ : ErrorHeap) : Outcome :=
  if v = "" then ⟨"", some ErrNoAuthHeaderIncluded, σ⟩
  else if v.data.take 7 = "ApiKey ".data then
    ⟨String.mk ((v.data.drop 7).takeWhile (fun c => c != ' ')), none, σ⟩
  else malformed σ

/-! ## Facts about the library model -/

theorem IndexByte_of_not_mem (sep : Char) (s : List Char) (h : sep ∉ s) :
    strings.IndexByte s sep = none := by
  induction s with
  | nil => rfl
  | cons x xs ih =>
    have hx : x ≠ sep := fun e => h (by simp [e])
    have hxs : sep ∉ xs := fun m => h (List.mem_cons_of_mem _ m)
    simp [strings.IndexByte, hx, ih hxs]

theorem IndexByte_append_cons (sep : Char) (a b : List Char) (h : sep ∉ a) :
    strings.IndexByte (a ++ sep :: b) sep = some a.length := by
  induction a with
  | nil => simp [strings.IndexByte]
  | cons x xs ih =>
    have hx : x ≠ sep := fun e => h (by simp [e])
    have hxs : sep ∉ xs := fun m => h (List.mem_cons_of_mem _ m)
    simp [strings.IndexByte, hx, ih hxs]

theorem genSplitLoop_of_not_mem (sep : Char) (n : Nat) (s : List Char) (h : sep ∉ s) :
    strings.genSplitLoop sep n s = [s] := by
  cases n with
  | zero => rfl
  | succ n => simp [strings.genSplitLoop, IndexByte_of_not_mem sep s h]

theorem genSplitLoop_append_cons (sep : Char) (n : Nat) (a b : List Char) (h : sep ∉ a) :
    strings.genSplitLoop sep (n + 1) (a ++ sep :: b) = a :: strings.genSplitLoop sep n b := by
  simp [strings.genSplitLoop, IndexByte_append_cons sep a b h]

/-- The number of loop iterations `strings.Split` allows is the number of
separators in the string. -/
theorem Split_fuel (s : String) (sep : Char) :
    min (strings.Count s.data sep + 1) (s.length + 1) - 1 = s.data.count sep := by
  have h := List.count_le_length sep s.data
  simp only [strings.Count, String.length]
  omega

/-- A string without separator splits into itself. -/
theorem Split_of_not_mem (s : String) (sep : Char) (h : sep ∉ s.data) :
    strings.Split s sep = [s] := by
  simp only [strings.Split]
  rw [Split_fuel, genSplitLoop_of_not_mem sep _ _ h]
  rfl

/-- A string `a ++ sep ++ b` with no separator in `a` splits into `a` and the
pieces of `b`. -/
theorem Split_append_cons (s : String) (sep : Char) (a b : List Char)
    (hs : s.data = a ++ sep :: b) (h : sep ∉ a) :
    strings.Split s sep = String.mk a :: strings.Split (String.mk b) sep := by
  have hc : s.data.count sep = b.count sep + 1 := by
    rw [hs, List.count_append, List.count_cons_self, List.count_eq_zero_of_not_mem h]
    omega
  simp only [strings.Split]
  rw [Split_fuel, Split_fuel, hc, hs, genSplitLoop_append_cons sep _ a b h]
  rfl

/-- The first piece of a split is the part before the first separator. -/
theorem Split_head (s : String) (sep : Char) :
    ∃ rest, strings.Split s sep = String.mk (s.data.takeWhile (fun c => c != sep)) :: rest := by
  by_cases h : sep ∈ s.data
  · obtain ⟨a, b, hs, ha⟩ := List.eq_append_cons_of_mem h
    refine ⟨strings.Split (String.mk b) sep, ?_⟩
    rw [Split_append_cons s sep a b hs ha, hs]
    have hp : ∀ c ∈ a, (fun c => c != sep) c = true := by
      intro c hc
      have : c ≠ sep := fun e => ha (e ▸ hc)
      simpa using this
    rw [List.takeWhile_append_of_pos hp]
    simp
  · refine ⟨[], ?_⟩
    rw [Split_of_not_mem s sep h]
    have hp : s.data.takeWhile (fun c => c != sep) = s.data := by
      rw [List.takeWhile_eq_self_iff]
      intro c hc
      have : c ≠ sep := fun e => h (e ▸ hc)
      simpa using this
    rw [hp]

/-! ## Facts about `GetAPIKey` -/

theorem canonical_Authorization : CanonicalMIMEHeaderKey "Authorization" = "Authorization" := by
  decide

/-- What `headers.Get("Authorization")` returns: the first value, or `""`. -/
theorem Get_Authorization (h : Header) :
    h.Get "Authorization" = (h.firstValue "Authorization").getD "" := by
  unfold Header.Get Header.firstValue
  rw [canonical_Authorization]
  cases h.index "Authorization" <;> rfl

theorem GetAPIKey_missing (h : Header) (σ : ErrorHeap) (hv : h.Get "Authorization" = "") :
    GetAPIKey h σ = some ⟨"", some ErrNoAuthHeaderIncluded, σ⟩ := by
  simp [GetAPIKey, hv]

theorem GetAPIKey_short (h : Header) (σ : ErrorHeap) (hne : h.Get "Authorization" ≠ "")
    (hl : (strings.Split (h.Get "Authorization") ' ').length < 2) :
    GetAPIKey h σ = some (malformed σ) := by
  simp [GetAPIKey, hne, hl, malformed]

theorem GetAPIKey_scheme (h : Header) (σ : ErrorHeap) (s0 s1 : String) (rest : List String)
    (hne : h.Get "Authorization" ≠ "")
    (hs : strings.Split (h.Get "Authorization") ' ' = s0 :: s1 :: rest) (h0 : s0 ≠ "ApiKey") :
    GetAPIKey h σ = some (malformed σ) := by
  simp [GetAPIKey, hne, hs, h0, malformed]

theorem GetAPIKey_ok (h : Header) (σ : ErrorHeap) (s1 : String) (rest : List String)
    (hne : h.Get "Authorization" ≠ "")
    (hs : strings.Split (h.Get "Authorization") ' ' = "ApiKey" :: s1 :: rest) :
    GetAPIKey h σ = some ⟨s1, none, σ⟩ := by
  simp [GetAPIKey, hne, hs]

theorem Get_of_firstValue (h : Header) (v : String)
    (hv : h.firstValue "Authorization" = some v) : h.Get "Authorization" = v := by
  rw [Get_Authorization, hv]; rfl

theorem String_ne_empty_of_mem (v : String) (c : Char) (hc : c ∈ v.data) : v ≠ "" := by
  intro e
  rw [e] at hc
  exact absurd hc (List.not_mem_nil c)

theorem Get_eq_empty_iff (h : Header) :
    h.Get "Authorization" = "" ↔
      (h.firstValue "Authorization" = none ∨ h.firstValue "Authorization" = some "") := by
  rw [Get_Authorization]
  cases h.firstValue "Authorization" with
  | none => simp
  | some v => simp

/-- The three ways `GetAPIKey` returns; it returns in one of them on every
input, and which one does not depend on the heap. -/
theorem GetAPIKey_cases_all (h : Header) :
    (h.Get "Authorization" = "" ∧
      ∀ σ, GetAPIKey h σ = some ⟨"", some ErrNoAuthHeaderIncluded, σ⟩) ∨
    (h.Get "Authorization" ≠ "" ∧ ∀ σ, GetAPIKey h σ = some (malformed σ)) ∨
    (h.Get "Authorization" ≠ "" ∧ ∃ k, ∀ σ, GetAPIKey h σ = some ⟨k, none, σ⟩) := by
  by_cases hv : h.Get "Authorization" = ""
  · exact Or.inl ⟨hv, fun σ => GetAPIKey_missing h σ hv⟩
  · obtain ⟨rest, hsp⟩ := Split_head (h.Get "Authorization") ' '
    cases rest with
    | nil =>
      refine Or.inr (Or.inl ⟨hv, fun σ => GetAPIKey_short h σ hv ?_⟩)
      rw [hsp]; exact Nat.lt_succ_self 1
    | cons s1 rest =>
      by_cases h0 : String.mk ((h.Get "Authorization").data.takeWhile (fun c => c != ' '))
          = "ApiKey"
      · rw [h0] at hsp
        exact Or.inr (Or.inr ⟨hv, s1, fun σ => GetAPIKey_ok h σ s1 rest hv hsp⟩)
      · exact Or.inr (Or.inl ⟨hv, fun σ => GetAPIKey_scheme h σ _ s1 rest hv hsp h0⟩)

theorem GetAPIKey_cases (h : Header) (σ : ErrorHeap) :
    (h.Get "Authorization" = "" ∧ GetAPIKey h σ = some ⟨"", some ErrNoAuthHeaderIncluded, σ⟩) ∨
    (h.Get "Authorization" ≠ "" ∧ GetAPIKey h σ = some (malformed σ)) ∨
    (h.Get "Authorization" ≠ "" ∧ ∃ k, GetAPIKey h σ = some ⟨k, none, σ⟩) := by
  rcases GetAPIKey_cases_all h with ⟨hg, hc⟩ | ⟨hg, hc⟩ | ⟨hg, k, hc⟩
  · exact Or.inl ⟨hg, hc σ⟩
  · exact Or.inr (Or.inl ⟨hg, hc σ⟩)
  · exact Or.inr (Or.inr ⟨hg, k, hc σ⟩)

/-- The object `errors.New` allocates holds the text it was given. -/
theorem Error_New_self (t : String) (σ : ErrorHeap) :
    errors.Error (errors.New t σ).2 (errors.New t σ).1 = some t := by
  simp [errors.New, errors.Error]

/-- An allocation leaves the objects allocated before as they are. -/
theorem Error_New_old (t u : String) (σ : ErrorHeap) (e : ErrorRef)
    (he : errors.Error σ e = some u) : errors.Error (errors.New t σ).2 e = some u := by
  simp only [errors.New, errors.Error, List.get?_eq_getElem?] at he ⊢
  have hlt : e < σ.length := by
    rcases Nat.lt_or_ge e σ.length with hl | hl
    · exact hl
    · rw [List.getElem?_eq_none_iff.2 hl] at he
      cases he
  rw [List.getElem?_append_left hlt]
  exact he

theorem sentinel_lt_of_HeapOK (σ : ErrorHeap) (hσ : HeapOK σ) :
    ErrNoAuthHeaderIncluded < σ.length := by
  cases σ with
  | nil => simp [HeapOK, errors.Error] at hσ
  | cons x xs => simp [ErrNoAuthHeaderIncluded, errors.New]

theorem malformed_err (σ : ErrorHeap) : (malformed σ).err = some σ.length := rfl

theorem malformed_text (σ : ErrorHeap) :
    errors.Error (malformed σ).heap σ.length = some "malformed authorization header" := by
  simp [malformed, errors.New, errors.Error]

/-- Only what `headers.Get("Authorization")` returns matters. -/
theorem GetAPIKey_congr (h1 h2 : Header) (σ : ErrorHeap)
    (hv : h1.firstValue "Authorization" = h2.firstValue "Authorization") :
    GetAPIKey h1 σ = GetAPIKey h2 σ := by
  have hg : h1.Get "Authorization" = h2.Get "Authorization" := by
    rw [Get_Authorization, Get_Authorization, hv]
  unfold GetAPIKey
  rw [hg]

/-! ### The split-free form -/

theorem data_of_take_seven (v : String) (hp : v.data.take 7 = "ApiKey ".data) :
    v.data = "ApiKey".data ++ ' ' :: v.data.drop 7 := by
  have h := List.take_append_drop 7 v.data
  rw [hp] at h
  rw [← h]
  rfl

/-- The source function computes the split-free description. -/
theorem GetAPIKey_eq_splitFree (h : Header) (σ : ErrorHeap) :
    GetAPIKey h σ = some (splitFreeResult (h.Get "Authorization") σ) := by
  by_cases hv : h.Get "Authorization" = ""
  · rw [GetAPIKey_missing h σ hv]
    simp [splitFreeResult, hv]
  · by_cases hp : (h.Get "Authorization").data.take 7 = "ApiKey ".data
    · have hd := data_of_take_seven _ hp
      obtain ⟨rest, hr⟩ := Split_head (String.mk ((h.Get "Authorization").data.drop 7)) ' '
      have hsp := Split_append_cons _ ' ' _ _ hd (by decide)
      rw [hr] at hsp
      rw [GetAPIKey_ok h σ _ rest hv hsp]
      simp [splitFreeResult, hv, hp]
    · have hres : splitFreeResult (h.Get "Authorization") σ = malformed σ := by
        simp [splitFreeResult, hv, hp]
      rw [hres]
      by_cases hm : ' ' ∈ (h.Get "Authorization").data
      · obtain ⟨a, b, hs, ha⟩ := List.eq_append_cons_of_mem hm
        obtain ⟨rest, hr⟩ := Split_head (String.mk b) ' '
        have hsp := Split_append_cons _ ' ' a b hs ha
        rw [hr] at hsp
        refine GetAPIKey_scheme h σ _ _ rest hv hsp ?_
        intro e
        have ea : a = "ApiKey".data := congrArg String.data e
        apply hp
        rw [hs, ea]
        rfl
      · apply GetAPIKey_short h σ hv
        rw [Split_of_not_mem _ ' ' hm]
        exact Nat.lt_succ_self 1

/-- When `headers.Get` returns a non-empty string, it is the first value. -/
theorem firstValue_of_Get_ne (h : Header) (hv : h.Get "Authorization" ≠ "") :
    h.firstValue "Authorization" = some (h.Get "Authorization") := by
  have hg := Get_Authorization h
  cases hf : h.firstValue "Authorization" with
  | none =>
    rw [hf] at hg
    exact absurd hg hv
  | some v =>
    rw [hf] at hg
    rw [hg]
    rfl

/-- What a successful call tells: the value starts with `"ApiKey "` and the
key is the space-free run after it. -/
theorem success_inv (h : Header) (σ : ErrorHeap) (o : Outcome)
    (hr : GetAPIKey h σ = some o) (hs : o.err = none) :
    h.Get "Authorization" ≠ "" ∧
    (h.Get "Authorization").data.take 7 = "ApiKey ".data ∧
    o.key = String.mk (((h.Get "Authorization").data.drop 7).takeWhile (fun c => c != ' ')) := by
  rw [GetAPIKey_eq_splitFree] at hr
  have ho : splitFreeResult (h.Get "Authorization") σ = o := Option.some.inj hr
  by_cases hv : h.Get "Authorization" = ""
  · simp [splitFreeResult, hv] at ho
    rw [← ho] at hs
    cases hs
  · by_cases hp : (h.Get "Authorization").data.take 7 = "ApiKey ".data
    · refine ⟨hv, hp, ?_⟩
      simp only [splitFreeResult, hv, hp, if_false, if_true] at ho
      rw [← ho]
    · simp only [splitFreeResult, hv, hp, if_false] at ho
      rw [← ho] at hs
      cases hs

theorem not_space_of_mem_takeWhile (l : List Char) :
    ' ' ∉ l.takeWhile (fun c => c != ' ') := by
  intro hm
  have hp := List.mem_takeWhile_imp hm
  simp at hp

theorem take_length_takeWhile (p : Char → Bool) (l : List Char) :
    l.take (l.takeWhile p).length = l.takeWhile p := by
  induction l with
  | nil => rfl
  | cons c cs ih =>
    by_cases hc : p c = true
    · simp [List.takeWhile_cons, hc, ih]
    · simp [List.takeWhile_cons, hc]

/-- The space-free run at the front of a list is non-empty exactly when the
list starts with a character other than the space. -/
theorem takeWhile_ne_nil_iff (l : List Char) :
    l.takeWhile (fun c => c != ' ') ≠ [] ↔ ∃ c, l.head? = some c ∧ c ≠ ' ' := by
  cases l with
  | nil => simp
  | cons c cs =>
    by_cases hc : c = ' '
    · simp [List.takeWhile_cons, hc]
    · simp [List.takeWhile_cons, hc]

/-! ### Letter case of header names -/

theorem toLower_of_not_upper (c : Char) (h : ¬ (c.toNat ≥ 65 ∧ c.toNat ≤ 90)) :
    c.toLower = c := by
  simp only [Char.toLower]
  rw [if_neg h]

/-- A property of the 26 upper-case letters holds of every character in their
range. -/
theorem upper_cases (P : Char → Prop) (hP : ∀ n, 65 ≤ n → n ≤ 90 → P (Char.ofNat n))
    (c : Char) (h : c.toNat ≥ 65 ∧ c.toNat ≤ 90) : P c := by
  rw [← Char.ofNat_toNat c]
  exact hP _ h.1 h.2

theorem canonicalByte_toLower (upper : Bool) (c : Char) :
    canonicalByte upper c.toLower = canonicalByte upper c := by
  by_cases h : c.toNat ≥ 65 ∧ c.toNat ≤ 90
  · revert upper
    refine upper_cases (fun c => ∀ upper, canonicalByte upper c.toLower = canonicalByte upper c)
      ?_ c h
    intro n h1 h2
    interval_cases n <;> decide
  · rw [toLower_of_not_upper c h]

theorem validHeaderFieldByte_toLower (c : Char) :
    validHeaderFieldByte c.toLower = validHeaderFieldByte c := by
  by_cases h : c.toNat ≥ 65 ∧ c.toNat ≤ 90
  · refine upper_cases (fun c => validHeaderFieldByte c.toLower = validHeaderFieldByte c) ?_ c h
    intro n h1 h2
    interval_cases n <;> decide
  · rw [toLower_of_not_upper c h]

theorem canonicalLoop_toLower (upper : Bool) (cs : List Char) :
    canonicalLoop upper (cs.map Char.toLower) = canonicalLoop upper cs := by
  induction cs generalizing upper with
  | nil => rfl
  | cons c cs ih =>
    simp only [List.map_cons, canonicalLoop, canonicalByte_toLower, ih]

theorem all_valid_toLower (cs : List Char) :
    (cs.map Char.toLower).all validHeaderFieldByte = cs.all validHeaderFieldByte := by
  induction cs with
  | nil => rfl
  | cons c cs ih =>
    simp only [List.map_cons, List.all_cons, validHeaderFieldByte_toLower, ih]

/-- Every spelling of `Authorization` in another letter case canonicalises to
`"Authorization"`. -/
theorem canonical_of_same_letters (name : String)
    (hn : name.data.map Char.toLower = "Authorization".data.map Char.toLower) :
    CanonicalMIMEHeaderKey name = "Authorization" := by
  have hval : name.data.all validHeaderFieldByte = true := by
    rw [← all_valid_toLower, hn]; decide
  have hloop : canonicalLoop true name.data = "Authorization".data := by
    rw [← canonicalLoop_toLower, hn]; decide
  simp only [CanonicalMIMEHeaderKey, hval, if_true, hloop]

/-! ## The claims -/

/-- C1: for every header collection whose first `Authorization` value is
`"ApiKey "` followed by a non-empty token `t` without a space, `GetAPIKey`
returns `t` and a nil error, and allocates nothing. -/
theorem GetAPIKey_valid_token (h : Header) (σ : ErrorHeap) (t : String)
    (hv : h.firstValue "Authorization" = some ("ApiKey " ++ t))
    (_hne : t ≠ "") (ht : ' ' ∉ t.data) :
    GetAPIKey h σ = some ⟨t, none, σ⟩ := by
  have hg := Get_of_firstValue h _ hv
  have hd : ("ApiKey " ++ t).data = "ApiKey".data ++ ' ' :: t.data := by
    rw [String.data_append]; rfl
  have hsp : strings.Split ("ApiKey " ++ t) ' ' = ["ApiKey", t] := by
    rw [Split_append_cons _ ' ' _ _ hd (by decide), Split_of_not_mem _ ' ' ht]
  refine GetAPIKey_ok h σ t [] ?_ ?_
  · rw [hg]
    exact String_ne_empty_of_mem _ ' ' (by rw [hd]; simp)
  · rw [hg, hsp]

/-- Witness of C1: the header of the test "Valid ApiKey header". -/
theorem GetAPIKey_valid_token_witness :
    GetAPIKey [("Authorization", ["ApiKey my-secret-key"])] initHeap
      = some ⟨"my-secret-key", none, initHeap⟩ :=
  GetAPIKey_valid_token [("Authorization", ["ApiKey my-secret-key"])] initHeap "my-secret-key"
    (by decide) (by decide) (by decide)

/-- C2: when the `Authorization` header is absent, or its first value is the
empty string, `GetAPIKey` fails with the sentinel `ErrNoAuthHeaderIncluded`,
returns the empty key and allocates nothing. -/
theorem GetAPIKey_missing_header (h : Header) (σ : ErrorHeap)
    (hv : h.firstValue "Authorization" = none ∨ h.firstValue "Authorization" = some "") :
    GetAPIKey h σ = some ⟨"", some ErrNoAuthHeaderIncluded, σ⟩ := by
  apply GetAPIKey_missing
  rw [Get_Authorization]
  rcases hv with hv | hv <;> rw [hv] <;> rfl

/-- Witness of C2: the empty collection and the collection with an empty
value. -/
theorem GetAPIKey_missing_header_witness :
    GetAPIKey [] initHeap = some ⟨"", some ErrNoAuthHeaderIncluded, initHeap⟩ ∧
    GetAPIKey [("Authorization", [""])] initHeap
      = some ⟨"", some ErrNoAuthHeaderIncluded, initHeap⟩ :=
  ⟨GetAPIKey_missing_header [] initHeap (Or.inl (by decide)),
   GetAPIKey_missing_header [("Authorization", [""])] initHeap (Or.inr (by decide))⟩

/-- C3: for every non-empty `Authorization` value whose first token (the part
before the first space, the whole value when there is no space) is not exactly
`"ApiKey"`, `GetAPIKey` fails with the malformed-header error: an empty key and
a freshly allocated error. -/
theorem GetAPIKey_wrong_scheme (h : Header) (σ : ErrorHeap) (v : String)
    (hv : h.firstValue "Authorization" = some v) (hne : v ≠ "")
    (hs : String.mk (v.data.takeWhile (fun c => c != ' ')) ≠ "ApiKey") :
    GetAPIKey h σ = some (malformed σ) := by
  have hg := Get_of_firstValue h v hv
  obtain ⟨rest, hsp⟩ := Split_head v ' '
  cases rest with
  | nil =>
    apply GetAPIKey_short h σ (by rw [hg]; exact hne)
    rw [hg, hsp]; exact Nat.lt_succ_self 1
  | cons s1 rest =>
    exact GetAPIKey_scheme h σ _ s1 rest (by rw [hg]; exact hne) (by rw [hg, hsp]) hs

/-- Witness of C3: another scheme, and the scheme in another letter case. -/
theorem GetAPIKey_wrong_scheme_witness :
    GetAPIKey [("Authorization", ["Bearer some-token"])] initHeap = some (malformed initHeap) ∧
    GetAPIKey [("Authorization", ["apikey k"])] initHeap = some (malformed initHeap) :=
  ⟨GetAPIKey_wrong_scheme [("Authorization", ["Bearer some-token"])] initHeap
      "Bearer some-token" (by decide) (by decide) (by decide),
   GetAPIKey_wrong_scheme [("Authorization", ["apikey k"])] initHeap
      "apikey k" (by decide) (by decide) (by decide)⟩

/-- C4: for every non-empty `Authorization` value without a space, the split
has fewer than two tokens and `GetAPIKey` fails with the malformed-header
error, also when the value is the scheme name itself. -/
theorem GetAPIKey_no_space (h : Header) (σ : ErrorHeap) (v : String)
    (hv : h.firstValue "Authorization" = some v) (hne : v ≠ "") (hs : ' ' ∉ v.data) :
    (strings.Split v ' ').length < 2 ∧ GetAPIKey h σ = some (malformed σ) := by
  have hg := Get_of_firstValue h v hv
  have hl : (strings.Split v ' ').length < 2 := by
    rw [Split_of_not_mem v ' ' hs]; exact Nat.lt_succ_self 1
  exact ⟨hl, GetAPIKey_short h σ (by rw [hg]; exact hne) (by rw [hg]; exact hl)⟩

/-- Witness of C4: the test "Malformed header - no space", and the bare scheme
name. -/
theorem GetAPIKey_no_space_witness :
    GetAPIKey [("Authorization", ["ApiKey-secret"])] initHeap = some (malformed initHeap) ∧
    GetAPIKey [("Authorization", ["ApiKey"])] initHeap = some (malformed initHeap) :=
  ⟨(GetAPIKey_no_space [("Authorization", ["ApiKey-secret"])] initHeap "ApiKey-secret"
      (by decide) (by decide) (by decide)).2,
   (GetAPIKey_no_space [("Authorization", ["ApiKey"])] initHeap "ApiKey"
      (by decide) (by decide) (by decide)).2⟩

/-- C5: whenever the split of the `Authorization` value on the space has at
least two tokens and the first is `"ApiKey"`, `GetAPIKey` succeeds and returns
exactly the second token; the tokens after it are discarded. -/
theorem GetAPIKey_second_token (h : Header) (σ : ErrorHeap) (v t : String) (rest : List String)
    (hv : h.firstValue "Authorization" = some v)
    (hs : strings.Split v ' ' = "ApiKey" :: t :: rest) :
    GetAPIKey h σ = some ⟨t, none, σ⟩ := by
  have hg := Get_of_firstValue h v hv
  have hne : v ≠ "" := by
    intro e
    rw [e, show strings.Split "" ' ' = [""] from rfl] at hs
    have hl := congrArg List.length hs
    simp at hl
  exact GetAPIKey_ok h σ t rest (by rw [hg]; exact hne) (by rw [hg]; exact hs)

/-- Witness of C5: of `"ApiKey a b c"` only `"a"` is returned. -/
theorem GetAPIKey_second_token_witness :
    GetAPIKey [("Authorization", ["ApiKey a b c"])] initHeap = some ⟨"a", none, initHeap⟩ :=
  GetAPIKey_second_token [("Authorization", ["ApiKey a b c"])] initHeap "ApiKey a b c" "a"
    ["b", "c"] (by decide) (by decide)

/-- C6: whenever `GetAPIKey` returns an error other than the sentinel, the
text of that error is exactly `"malformed authorization header"`. -/
theorem GetAPIKey_malformed_text (h : Header) (σ : ErrorHeap) (o : Outcome) (e : ErrorRef)
    (hr : GetAPIKey h σ = some o) (he : o.err = some e) (hne : e ≠ ErrNoAuthHeaderIncluded) :
    errors.Error o.heap e = some "malformed authorization header" := by
  rcases GetAPIKey_cases h σ with ⟨_, hc⟩ | ⟨_, hc⟩ | ⟨_, k, hc⟩
  · rw [hc] at hr
    cases hr
    simp only [Option.some.injEq] at he
    exact absurd he.symm hne
  · rw [hc] at hr
    cases hr
    rw [malformed_err] at he
    cases he
    exact malformed_text σ
  · rw [hc] at hr
    cases hr
    cases he

/-- Witness of C6: the test "Malformed header - no space". -/
theorem GetAPIKey_malformed_text_witness :
    errors.Error (malformed initHeap).heap 1 = some "malformed authorization header" :=
  GetAPIKey_malformed_text [("Authorization", ["ApiKey-secret"])] initHeap (malformed initHeap) 1
    (by decide) (by decide) (by decide)

/-- C7: on a heap where the sentinel is allocated, `GetAPIKey` returns, and the
error it returns is the sentinel `ErrNoAuthHeaderIncluded` if and only if the
`Authorization` header is absent or its first value is empty; the error of the
malformed case is never the sentinel. -/
theorem GetAPIKey_sentinel_iff (h : Header) (σ : ErrorHeap) (hσ : HeapOK σ) :
    (∃ o, GetAPIKey h σ = some o ∧
      (o.err = some ErrNoAuthHeaderIncluded ↔
        (h.firstValue "Authorization" = none ∨ h.firstValue "Authorization" = some ""))) ∧
    (malformed σ).err ≠ some ErrNoAuthHeaderIncluded := by
  have hlt := sentinel_lt_of_HeapOK σ hσ
  have hm : (malformed σ).err ≠ some ErrNoAuthHeaderIncluded := by
    rw [malformed_err]
    intro e
    have e1 : σ.length = ErrNoAuthHeaderIncluded := Option.some.inj e
    rw [e1] at hlt
    exact Nat.lt_irrefl _ hlt
  refine ⟨?_, hm⟩
  rcases GetAPIKey_cases h σ with ⟨hg, hc⟩ | ⟨hg, hc⟩ | ⟨hg, k, hc⟩
  · exact ⟨_, hc, ⟨fun _ => (Get_eq_empty_iff h).1 hg, fun _ => rfl⟩⟩
  · exact ⟨_, hc, ⟨fun e => absurd e hm, fun e => absurd ((Get_eq_empty_iff h).2 e) hg⟩⟩
  · refine ⟨_, hc, ⟨fun e => ?_, fun e => absurd ((Get_eq_empty_iff h).2 e) hg⟩⟩
    cases e

/-- Witness of C7, on the heap right after package initialisation. -/
theorem GetAPIKey_sentinel_iff_witness :
    (∃ o, GetAPIKey [("Authorization", ["ApiKey-secret"])] initHeap = some o ∧
      (o.err = some ErrNoAuthHeaderIncluded ↔
        (Header.firstValue [("Authorization", ["ApiKey-secret"])] "Authorization" = none ∨
         Header.firstValue [("Authorization", ["ApiKey-secret"])] "Authorization" = some ""))) ∧
    (malformed initHeap).err ≠ some ErrNoAuthHeaderIncluded :=
  GetAPIKey_sentinel_iff [("Authorization", ["ApiKey-secret"])] initHeap (by decide)

/-- C8 as stated fails: an entry stored under the map key `"authorization"` is
not found by `headers.Get("Authorization")`, which canonicalises the name it
asks for and not the keys of the map; the result is the sentinel error and not
the key `"k"`. -/
theorem GetAPIKey_lowercase_key_missing :
    GetAPIKey [("authorization", ["ApiKey k"])] initHeap
      = some ⟨"", some ErrNoAuthHeaderIncluded, initHeap⟩ ∧
    GetAPIKey [("authorization", ["ApiKey k"])] initHeap ≠ some ⟨"k", none, initHeap⟩ := by
  decide

/-- C8, amended: the header is looked up under the canonical name
`"Authorization"`.  An entry stored with `Header.Set` under a name that differs
from `"Authorization"` only in letter case is treated as the `Authorization`
header, and an entry stored directly under a map key other than exactly
`"Authorization"` is not consulted. -/
theorem GetAPIKey_canonical_name (h : Header) (σ : ErrorHeap) (name v : String)
    (hn : name.data.map Char.toLower = "Authorization".data.map Char.toLower) :
    GetAPIKey (h.Set name v) σ = GetAPIKey [("Authorization", [v])] σ ∧
    (name ≠ "Authorization" → GetAPIKey ((name, [v]) :: h) σ = GetAPIKey h σ) := by
  constructor
  · apply GetAPIKey_congr
    simp [Header.firstValue, Header.index, Header.Set, canonical_of_same_letters name hn]
  · intro hne
    apply GetAPIKey_congr
    have hb : ("Authorization" == name) = false := by
      simpa using fun e => hne e.symm
    simp [Header.firstValue, Header.index, List.lookup_cons, hb]

/-- Witness of C8 amended: the lower-case name works through `Header.Set` and
is ignored as a raw map key. -/
theorem GetAPIKey_canonical_name_witness :
    GetAPIKey (Header.Set [] "authorization" "ApiKey k") initHeap
      = GetAPIKey [("Authorization", ["ApiKey k"])] initHeap ∧
    GetAPIKey [("authorization", ["ApiKey k"])] initHeap = GetAPIKey [] initHeap :=
  ⟨(GetAPIKey_canonical_name [] initHeap "authorization" "ApiKey k" (by decide)).1,
   (GetAPIKey_canonical_name [] initHeap "authorization" "ApiKey k" (by decide)).2 (by decide)⟩

/-- C9: the result of `GetAPIKey` depends only on the first value of the
`Authorization` header: two collections that agree on it (or both lack the
header) give the same result on the same heap, whatever else they hold. -/
theorem GetAPIKey_first_value_only (h1 h2 : Header) (σ : ErrorHeap)
    (hv : h1.firstValue "Authorization" = h2.firstValue "Authorization") :
    GetAPIKey h1 σ = GetAPIKey h2 σ :=
  GetAPIKey_congr h1 h2 σ hv

/-- Witness of C9: further values and other headers change nothing; an empty
first value hides a well-formed second one. -/
theorem GetAPIKey_first_value_only_witness :
    (GetAPIKey [("Accept", ["text/html"]), ("Authorization", ["ApiKey a", "ApiKey b"])] initHeap
      = GetAPIKey [("Authorization", ["ApiKey a"])] initHeap ∧
     GetAPIKey [("Authorization", ["ApiKey a"])] initHeap = some ⟨"a", none, initHeap⟩) ∧
    (GetAPIKey [("Authorization", ["", "ApiKey k"])] initHeap
      = GetAPIKey [("Authorization", [""])] initHeap ∧
     GetAPIKey [("Authorization", [""])] initHeap
      = some ⟨"", some ErrNoAuthHeaderIncluded, initHeap⟩) :=
  ⟨⟨GetAPIKey_first_value_only _ _ initHeap (by decide), by decide⟩,
   ⟨GetAPIKey_first_value_only _ _ initHeap (by decide), by decide⟩⟩

/-- C10 as stated fails: two calls on the same collection that both fail with
the malformed-header error return two different error values, because each
call runs `errors.New` again. -/
theorem malformed_twice_not_equal :
    GetAPIKey [("Authorization", ["ApiKey-secret"])] initHeap = some (malformed initHeap) ∧
    GetAPIKey [("Authorization", ["ApiKey-secret"])] (malformed initHeap).heap
      = some (malformed (malformed initHeap).heap) ∧
    (malformed initHeap).err = some 1 ∧
    (malformed (malformed initHeap).heap).err = some 2 ∧
    (malformed initHeap).err ≠ (malformed (malformed initHeap).heap).err := by
  decide

/-- C10, amended: on a heap where the sentinel is allocated, two successive
calls on the same collection both return, with the same key and the same kind
of result: both a nil error, or both the sentinel, or both a malformed-header
error whose text is `"malformed authorization header"`; in the last case the
two error values are distinct objects.  The collection is an input only: the
second call receives it as the first did. -/
theorem GetAPIKey_repeat (h : Header) (σ : ErrorHeap) (hσ : HeapOK σ) :
    ∃ o1 o2, GetAPIKey h σ = some o1 ∧ GetAPIKey h o1.heap = some o2 ∧
      o1.key = o2.key ∧
      ((o1.err = none ∧ o2.err = none) ∨
       (o1.err = some ErrNoAuthHeaderIncluded ∧ o2.err = some ErrNoAuthHeaderIncluded) ∨
       (∃ e1 e2, o1.err = some e1 ∧ o2.err = some e2 ∧
          e1 ≠ ErrNoAuthHeaderIncluded ∧ e2 ≠ ErrNoAuthHeaderIncluded ∧ e1 ≠ e2 ∧
          errors.Error o2.heap e1 = some "malformed authorization header" ∧
          errors.Error o2.heap e2 = some "malformed authorization header")) := by
  have hlt := sentinel_lt_of_HeapOK σ hσ
  rcases GetAPIKey_cases_all h with ⟨_, hc⟩ | ⟨_, hc⟩ | ⟨_, k, hc⟩
  · exact ⟨_, _, hc σ, hc _, rfl, Or.inr (Or.inl ⟨rfl, rfl⟩)⟩
  · refine ⟨_, _, hc σ, hc _, rfl,
      Or.inr (Or.inr ⟨σ.length, (malformed σ).heap.length, rfl, rfl, ?_, ?_, ?_, ?_, ?_⟩)⟩
    · intro e; rw [e] at hlt; exact Nat.lt_irrefl _ hlt
    · intro e
      rw [← e] at hlt
      simp [malformed, errors.New] at hlt
    · simp [malformed, errors.New]
    · exact Error_New_old _ _ _ _ (malformed_text σ)
    · exact Error_New_self _ _
  · exact ⟨_, _, hc σ, hc _, rfl, Or.inl ⟨rfl, rfl⟩⟩

/-- Witness of C10 amended, on the heap right after package initialisation and
the collection of the test "Malformed header - no space". -/
theorem GetAPIKey_repeat_witness :
    ∃ o1 o2, GetAPIKey [("Authorization", ["ApiKey-secret"])] initHeap = some o1 ∧
      GetAPIKey [("Authorization", ["ApiKey-secret"])] o1.heap = some o2 ∧
      o1.key = o2.key ∧
      ((o1.err = none ∧ o2.err = none) ∨
       (o1.err = some ErrNoAuthHeaderIncluded ∧ o2.err = some ErrNoAuthHeaderIncluded) ∨
       (∃ e1 e2, o1.err = some e1 ∧ o2.err = some e2 ∧
          e1 ≠ ErrNoAuthHeaderIncluded ∧ e2 ≠ ErrNoAuthHeaderIncluded ∧ e1 ≠ e2 ∧
          errors.Error o2.heap e1 = some "malformed authorization header" ∧
          errors.Error o2.heap e2 = some "malformed authorization header")) :=
  GetAPIKey_repeat [("Authorization", ["ApiKey-secret"])] initHeap (by decide)

/-- C11 as stated fails: the key returned on success can be empty, and it can
hold white space other than the space, here a tab. -/
theorem GetAPIKey_key_empty_or_tab :
    GetAPIKey [("Authorization", ["ApiKey "])] initHeap = some ⟨"", none, initHeap⟩ ∧
    String.length "" = 0 ∧
    GetAPIKey [("Authorization", ["ApiKey a\tb"])] initHeap = some ⟨"a\tb", none, initHeap⟩ ∧
    "a\tb".data.any Char.isWhitespace = true := by
  decide

/-- C11, amended: every key returned on success is free of the ASCII space, and
it is non-empty exactly when the `Authorization` value has a character other
than the space right after the seven characters `"ApiKey "`. -/
theorem GetAPIKey_key_shape (h : Header) (σ : ErrorHeap) (v : String) (o : Outcome)
    (hv : h.firstValue "Authorization" = some v)
    (hr : GetAPIKey h σ = some o) (hs : o.err = none) :
    ' ' ∉ o.key.data ∧
    (1 ≤ o.key.length ↔ ∃ c, v.data.get? 7 = some c ∧ c ≠ ' ') := by
  obtain ⟨_, _, hk⟩ := success_inv h σ o hr hs
  rw [Get_of_firstValue h v hv] at hk
  constructor
  · rw [hk]
    exact not_space_of_mem_takeWhile _
  · have hh : v.data.get? 7 = (v.data.drop 7).head? := by
      simp [List.head?_drop]
    rw [hh, ← takeWhile_ne_nil_iff, hk]
    simp only [String.length]
    rw [Nat.one_le_iff_ne_zero]
    exact not_congr List.length_eq_zero

/-- Witness of C11 amended: a key with a tab, no space, and a character other
than the space after the scheme. -/
theorem GetAPIKey_key_shape_witness :
    ' ' ∉ "a\tb".data ∧
    (1 ≤ "a\tb".length ↔ ∃ c, "ApiKey a\tb".data.get? 7 = some c ∧ c ≠ ' ') :=
  GetAPIKey_key_shape [("Authorization", ["ApiKey a\tb"])] initHeap "ApiKey a\tb"
    ⟨"a\tb", none, initHeap⟩ (by decide) (by decide) (by decide)

/-- C12: for the `Authorization` value `"ApiKey "` the call returns the empty
key and a nil error. -/
theorem GetAPIKey_trailing_space (h : Header) (σ : ErrorHeap)
    (hv : h.firstValue "Authorization" = some "ApiKey ") :
    GetAPIKey h σ = some ⟨"", none, σ⟩ := by
  rw [GetAPIKey_eq_splitFree, Get_of_firstValue h _ hv]
  rfl

/-- Witness of C12. -/
theorem GetAPIKey_trailing_space_witness :
    GetAPIKey [("Authorization", ["ApiKey "])] initHeap = some ⟨"", none, initHeap⟩ :=
  GetAPIKey_trailing_space [("Authorization", ["ApiKey "])] initHeap (by decide)

/-- C13: for every `Authorization` value that begins with a space, the first
token of the split is the empty string and the call fails with the
malformed-header error, whatever follows the space. -/
theorem GetAPIKey_leading_space (h : Header) (σ : ErrorHeap) (v : String) (rest : List Char)
    (hv : h.firstValue "Authorization" = some v) (hsp : v.data = ' ' :: rest) :
    (strings.Split v ' ').head? = some "" ∧ GetAPIKey h σ = some (malformed σ) := by
  constructor
  · obtain ⟨r, hr⟩ := Split_head v ' '
    rw [hr, hsp]
    rfl
  · have hne : v ≠ "" := String_ne_empty_of_mem v ' ' (by rw [hsp]; simp)
    rw [GetAPIKey_eq_splitFree, Get_of_firstValue h v hv]
    have hp : v.data.take 7 ≠ "ApiKey ".data := by
      rw [hsp]
      intro e
      have e0 := congrArg List.head? e
      simp at e0
    simp [splitFreeResult, hne, hp]

/-- Witness of C13: a well-formed value behind a leading space. -/
theorem GetAPIKey_leading_space_witness :
    (strings.Split " ApiKey k" ' ').head? = some "" ∧
    GetAPIKey [("Authorization", [" ApiKey k"])] initHeap = some (malformed initHeap) :=
  GetAPIKey_leading_space [("Authorization", [" ApiKey k"])] initHeap " ApiKey k"
    "ApiKey k".data (by decide) (by decide)

/-- C14: split-free characterisation.  For every `Authorization` value `v` the
call returns what the split-free description says, and it succeeds if and only
if `v` starts with the seven characters `"ApiKey "`; the key is then the
longest space-free run after them, and every other non-empty value gives the
malformed-header error. -/
theorem GetAPIKey_split_free (h : Header) (σ : ErrorHeap) (v : String)
    (hv : h.firstValue "Authorization" = some v) :
    GetAPIKey h σ = some (splitFreeResult v σ) ∧
    ((∃ o, GetAPIKey h σ = some o ∧ o.err = none) ↔ v.data.take 7 = "ApiKey ".data) ∧
    (v.data.take 7 = "ApiKey ".data →
      GetAPIKey h σ
        = some ⟨String.mk ((v.data.drop 7).takeWhile (fun c => c != ' ')), none, σ⟩) ∧
    (v ≠ "" → v.data.take 7 ≠ "ApiKey ".data → GetAPIKey h σ = some (malformed σ)) := by
  have hg := Get_of_firstValue h v hv
  have heq : GetAPIKey h σ = some (splitFreeResult v σ) := by
    rw [GetAPIKey_eq_splitFree, hg]
  have hok : v.data.take 7 = "ApiKey ".data →
      splitFreeResult v σ
        = ⟨String.mk ((v.data.drop 7).takeWhile (fun c => c != ' ')), none, σ⟩ := by
    intro hp
    have hne : v ≠ "" := by
      intro e
      rw [e] at hp
      cases hp
    simp [splitFreeResult, hne, hp]
  refine ⟨heq, ⟨?_, ?_⟩, ?_, ?_⟩
  · rintro ⟨o, hr, hs⟩
    have hi := (success_inv h σ o hr hs).2.1
    rw [hg] at hi
    exact hi
  · intro hp
    exact ⟨_, by rw [heq, hok hp], rfl⟩
  · intro hp
    rw [heq, hok hp]
  · intro hne hp
    rw [heq]
    simp [splitFreeResult, hne, hp]

/-- Witness of C14: with two spaces after the scheme the key is empty. -/
theorem GetAPIKey_split_free_witness :
    GetAPIKey [("Authorization", ["ApiKey  k"])] initHeap = some ⟨"", none, initHeap⟩ :=
  ((GetAPIKey_split_free [("Authorization", ["ApiKey  k"])] initHeap "ApiKey  k"
    (by decide)).2.2.1 (by decide)).trans (by decide)

/-- C15: on success the key has no ASCII space and is the part of the
`Authorization` value that starts at index 7 and has the length of the key. -/
theorem GetAPIKey_key_substring (h : Header) (σ : ErrorHeap) (o : Outcome)
    (hr : GetAPIKey h σ = some o) (hs : o.err = none) :
    ' ' ∉ o.key.data ∧
    ∃ v, h.firstValue "Authorization" = some v ∧ 7 ≤ v.length ∧
      (v.data.drop 7).take o.key.length = o.key.data := by
  obtain ⟨hne, hp, hk⟩ := success_inv h σ o hr hs
  refine ⟨?_, h.Get "Authorization", firstValue_of_Get_ne h hne, ?_, ?_⟩
  · rw [hk]
    exact not_space_of_mem_takeWhile _
  · have hl := congrArg List.length hp
    rw [List.length_take] at hl
    have h7 : "ApiKey ".data.length = 7 := rfl
    rw [h7] at hl
    simp only [String.length]
    omega
  · rw [hk]
    exact take_length_takeWhile _ _

/-- Witness of C15: the key `"a"` of `"ApiKey a b c"`. -/
theorem GetAPIKey_key_substring_witness :
    ' ' ∉ "a".data ∧
    ∃ v, Header.firstValue [("Authorization", ["ApiKey a b c"])] "Authorization" = some v ∧
      7 ≤ v.length ∧ (v.data.drop 7).take "a".length = "a".data :=
  GetAPIKey_key_substring [("Authorization", ["ApiKey a b c"])] initHeap ⟨"a", none, initHeap⟩
    (by decide) (by decide)

/-- C16: `GetAPIKey` returns on every collection and every heap, it never
panics; and whenever it returns through `return splitAuth[1], nil`, the split
has at least two elements and the key is its element of index 1. -/
theorem GetAPIKey_total (h : Header) (σ : ErrorHeap) :
    (∃ o, GetAPIKey h σ = some o) ∧
    (∀ o, GetAPIKey h σ = some o → o.err = none →
      2 ≤ (strings.Split (h.Get "Authorization") ' ').length ∧
      (strings.Split (h.Get "Authorization") ' ').get? 1 = some o.key) := by
  constructor
  · exact ⟨_, GetAPIKey_eq_splitFree h σ⟩
  · intro o hr hs
    obtain ⟨hne, hp, hk⟩ := success_inv h σ o hr hs
    have hd := data_of_take_seven _ hp
    obtain ⟨rest, hrest⟩ := Split_head (String.mk ((h.Get "Authorization").data.drop 7)) ' '
    have hsp := Split_append_cons _ ' ' _ _ hd (by decide)
    rw [hrest] at hsp
    rw [hsp, hk]
    exact ⟨by simp, rfl⟩

end Auth
